import Mathlib

/-!
# Verification of the federated event-ingestion engine (conduwuit)

Shallow embedding of `src/service/rooms/event_handler/mod.rs` and
`src/service/rooms/state_cache/mod.rs`.  Identifiers (event ids, room ids,
user ids, server names) are modelled as `String`; instants and durations as
`Nat` (seconds); database tables as association lists.  External library
primitives (the signature verifier, the room-version `auth_check`, the state
resolver) are black boxes per the specification and enter the model as
explicit parameters recording their outcome.
-/

namespace Conduwuit

/-- A persistent data unit, from the repository's `PduEvent` fields that the
event handler reads: event id, room id, sender, origin timestamp, type,
optional state key, prev events and auth events. -/
structure PduEvent where
  event_id : String
  room_id : String
  sender : String
  origin_server_ts : Nat
  kind : String
  state_key : Option String
  prev_events : List String
  auth_events : List String
deriving DecidableEq, Repr

/-- Error outcomes of the event handler, one constructor per distinct
`Error::...` return site used by the embedded functions. -/
inductive Err where
  | roomUnknown
  | federationDisabled
  | aclDenied
  | signatureVerificationFailed
  | redactionFailed
  | redactedKnown
  | notAPdu
  | wrongRoomId
  | duplicateAuthSlot
  | wrongCreateEvent
  | authCheckFailed
  | authAtEventFailed
  | nonStateInState
  | duplicateStateSlot
  | wrongCreateInState
  | softFailed
  | backingOff
  | peerFetchFailed
deriving DecidableEq, Repr

/-! ## Exponential backoff (`bad_event_ratelimiter` / `bad_signature_ratelimiter`)

The backoff computation appears verbatim at every ratelimiter read site:

    let mut min_elapsed_duration = Duration::from_secs(5 * 60) * (*tries) * (*tries);
    if min_elapsed_duration > Duration::from_secs(60 * 60 * 24) {
        min_elapsed_duration = Duration::from_secs(60 * 60 * 24);
    }
    if time.elapsed() < min_elapsed_duration { ... back off ... }

and the `back_off` closure is the failure-path update of the map. -/

/-- The `min_elapsed_duration` in seconds for a stored try counter, from the
backoff blocks of `handle_incoming_pdu`, `fetch_and_handle_outliers`,
`get_server_keys_from_cache` and `fetch_signing_keys_for_server`. -/
def min_elapsed_duration (tries : Nat) : Nat :=
  let d := 5 * 60 * tries * tries
  if d > 60 * 60 * 24 then 60 * 60 * 24 else d

/-- A ratelimiter map `id → (last_attempt_time, consecutive_failures)`. -/
def RateLimiter : Type := List (String × Nat × Nat)

/-- Lookup in the ratelimiter map (first matching entry). -/
def RateLimiter.get : RateLimiter → String → Option (Nat × Nat)
  | [], _ => none
  | e :: rest, id => if e.1 = id then some e.2 else RateLimiter.get rest id

/-- Whether a read site is currently in backoff for `id`; from

    if let Some((time, tries)) = ...get(id) { ... if time.elapsed() < min_elapsed_duration { skip } }

`now - time` is `time.elapsed()`. -/
def RateLimiter.inBackoff (rl : RateLimiter) (id : String) (now : Nat) : Bool :=
  match rl.get id with
  | some (time, tries) => now - time < min_elapsed_duration tries
  | none => false

/-- The `back_off` closure / the `hash_map::Entry` update run on every
failure: a vacant entry becomes `(now, 1)`, an occupied entry `(time, tries)`
becomes `(now, tries + 1)`. -/
def RateLimiter.backOff (rl : RateLimiter) (id : String) (now : Nat) : RateLimiter :=
  match rl.get id with
  | none => (id, now, 1) :: rl
  | some _ => rl.map (fun e => if e.1 = id then (id, now, e.2.2 + 1) else e)

theorem RateLimiter.get_backOff_self (rl : RateLimiter) (id : String) (now : Nat) :
    (rl.backOff id now).get id =
      some (now, match rl.get id with | none => 1 | some (_, tries) => tries + 1) := by
  induction rl with
  | nil => simp [RateLimiter.backOff, RateLimiter.get]
  | cons e rest ih =>
    by_cases he : e.1 = id
    · simp [RateLimiter.backOff, RateLimiter.get, he]
    · cases h : RateLimiter.get rest id with
      | none =>
        simp [RateLimiter.backOff, RateLimiter.get, he, h]
      | some v =>
        simp only [RateLimiter.backOff, RateLimiter.get, if_neg he, h] at ih ⊢
        simpa [List.map, RateLimiter.get, he] using ih

/-- C6: for every id tracked by a bad-event or bad-signature ratelimiter
entry `(time, tries)`, the minimum backoff wait is `5 minutes × tries²`
capped at 24 hours; the read sites skip / fail fast exactly when
`elapsed < min_wait`; and every failure either inserts `(now, 1)` for a new
id or updates an existing entry to `(now, prev_tries + 1)`. -/
theorem C6_backoff_schedule :
    (∀ tries, min_elapsed_duration tries = min (5 * 60 * tries * tries) (60 * 60 * 24)) ∧
    (∀ (rl : RateLimiter) (id : String) (now time tries : Nat),
        rl.get id = some (time, tries) →
          (rl.inBackoff id now = true ↔ now - time < min_elapsed_duration tries)) ∧
    (∀ (rl : RateLimiter) (id : String) (now : Nat),
        rl.get id = none → rl.inBackoff id now = false) ∧
    (∀ (rl : RateLimiter) (id : String) (now : Nat),
        rl.get id = none → (rl.backOff id now).get id = some (now, 1)) ∧
    (∀ (rl : RateLimiter) (id : String) (now time tries : Nat),
        rl.get id = some (time, tries) →
          (rl.backOff id now).get id = some (now, tries + 1)) := by
  refine ⟨fun tries => ?_, fun rl id now time tries h => ?_, fun rl id now h => ?_,
    fun rl id now h => ?_, fun rl id now time tries h => ?_⟩
  · by_cases h : 5 * 60 * tries * tries > 60 * 60 * 24 <;>
      simp only [min_elapsed_duration, h, if_true, if_false] <;> omega
  · simp [RateLimiter.inBackoff, h]
  · simp [RateLimiter.inBackoff, h]
  · have := RateLimiter.get_backOff_self rl id now
    rw [h] at this
    exact this
  · have := RateLimiter.get_backOff_self rl id now
    rw [h] at this
    exact this

/-- Witness for C6 at a concrete ratelimiter map. -/
theorem C6_backoff_schedule_witness :
    RateLimiter.get
        (RateLimiter.backOff [(String.mk ['e'], 10, 2)] (String.mk ['e']) 50)
        (String.mk ['e']) = some (50, 3) :=
  C6_backoff_schedule.2.2.2.2 [(String.mk ['e'], 10, 2)] (String.mk ['e']) 50 10 2 (by decide)

/-! ## `handle_outlier_pdu` (steps 1-7 of the admission protocol)

The signature verifier (`ruma::signatures::verify_event`) and the
room-version auth check (`state_res::event_auth::auth_check`) are external
library primitives (spec §4.1, §4.3); they enter the model as the recorded
outcome of the call.  JSON deserialization is not modelled: the input value
is already the typed `PduEvent` (the handler injects the caller's `event_id`
into the object before parsing, so the typed event's `event_id` field is the
caller's id).  Redaction keeps every field this handler reads (all are
protected fields), so the redacted form is modelled by the event itself. -/

/-- First-match lookup in an association list. -/
def alookup {κ α : Type} [DecidableEq κ] : List (κ × α) → κ → Option α
  | [], _ => none
  | e :: rest, k => if e.1 = k then some e.2 else alookup rest k

/-- Outcome of `ruma::signatures::verify_event`: `Verified::All`,
`Verified::Signatures` (hash mismatch, caller must redact), or `Err`. -/
inductive SigVerify where
  | allOk
  | signaturesOnly
  | invalid
deriving DecidableEq, Repr

/-- The slice of the PDU store read and written by `handle_outlier_pdu`:
`pdus` backs `services().rooms.timeline.get_pdu` (timeline and outliers),
`pduJsonIds` backs `get_pdu_json` (ids with a stored canonical object), and
`outliers` is the outlier tree written by `add_pdu_outlier`. -/
structure OutlierDb where
  pdus : List (String × PduEvent)
  pduJsonIds : List String
  outliers : List String
deriving DecidableEq, Repr

/-- Step 7, `add_pdu_outlier`: persist the event as an outlier. -/
def OutlierDb.addOutlier (db : OutlierDb) (pdu : PduEvent) : OutlierDb :=
  { db with
    pdus := (pdu.event_id, pdu) :: db.pdus,
    pduJsonIds := pdu.event_id :: db.pduJsonIds,
    outliers := pdu.event_id :: db.outliers }

/-- Recorded outcomes of the external primitives used by one
`handle_outlier_pdu` call, plus the (abstracted) recursive
`fetch_and_handle_outliers` pass over the declared auth events. -/
structure OutlierCtx where
  verify : SigVerify
  authCheck : List ((String × String) × PduEvent) → Option Bool
  fetchAuthEvents : OutlierDb → List String → OutlierDb

/-- The auth-event map construction of `handle_outlier_pdu` (step 6): walk
`incoming_pdu.auth_events` in order; skip ids with no stored pdu
(`Could not find auth event`); `check_room_id` each found event; key the map
by `(kind, state_key)` and reject a duplicate key as
`Auth event's type and state_key combination exists multiple times`.
(The source reads the state key with `.expect(..)`: auth events always have
state keys; a missing one is keyed by the empty string here.) -/
def buildAuthEventMap (getPdu : String → Option PduEvent) (room_id : String) :
    List String → List ((String × String) × PduEvent) →
      Except Err (List ((String × String) × PduEvent))
  | [], acc => .ok acc
  | id :: rest, acc =>
    match getPdu id with
    | none => buildAuthEventMap getPdu room_id rest acc
    | some auth_event =>
      if auth_event.room_id ≠ room_id then .error .wrongRoomId
      else
        let key := (auth_event.kind, auth_event.state_key.getD (String.mk []))
        match alookup acc key with
        | some _ => .error .duplicateAuthSlot
        | none => buildAuthEventMap getPdu room_id rest ((key, auth_event) :: acc)

/-- The create-event guard of `handle_outlier_pdu`, verbatim from the source:

    // The original create event must be in the auth events
    if !matches!(
        auth_events.get(&(StateEventType::RoomCreate, String::new())).map(AsRef::as_ref),
        Some(_) | None
    ) { return Err(..., "Incoming event refers to wrong create event."); }

The guard rejects exactly when the `matches!` pattern fails. -/
def createEventGuardRejects (auth_events : List ((String × String) × PduEvent)) : Bool :=
  !(match alookup auth_events (String.mk "m.room.create".data, String.mk []) with
    | some _ => true
    | none => true)

/-- The part of `handle_outlier_pdu` after the signature step: room-id check, auth-event
fetch (when `auth_events_known` is false), auth-event map, create-event
guard, room-version auth check, and persistence as an outlier.  Returns the
result together with the store. -/
def outlierAuthPhase (ctx : OutlierCtx) (db : OutlierDb) (room_id : String)
    (incoming_pdu : PduEvent) (auth_events_known : Bool) :
    Except Err PduEvent × OutlierDb :=
  if incoming_pdu.room_id ≠ room_id then (.error .wrongRoomId, db)
  else
    let db1 := if auth_events_known then db
               else ctx.fetchAuthEvents db incoming_pdu.auth_events
    match buildAuthEventMap (alookup db1.pdus) room_id incoming_pdu.auth_events [] with
    | .error e => (.error e, db1)
    | .ok auth_events =>
      if createEventGuardRejects auth_events then (.error .wrongCreateEvent, db1)
      else
        match ctx.authCheck auth_events with
        | none => (.error .authCheckFailed, db1)
        | some false => (.error .authCheckFailed, db1)
        | some true => (.ok incoming_pdu, db1.addOutlier incoming_pdu)

/-- Function `handle_outlier_pdu` (steps 1-7): drop the event when signature
verification fails; on a hash mismatch redact and drop a duplicate of an
already-stored event; then run the auth phase. -/
def handle_outlier_pdu (ctx : OutlierCtx) (db : OutlierDb) (room_id : String)
    (value : PduEvent) (auth_events_known : Bool) :
    Except Err PduEvent × OutlierDb :=
  match ctx.verify with
  | .invalid => (.error .signatureVerificationFailed, db)
  | .signaturesOnly =>
    if db.pduJsonIds.contains value.event_id then (.error .redactedKnown, db)
    else outlierAuthPhase ctx db room_id value auth_events_known
  | .allOk => outlierAuthPhase ctx db room_id value auth_events_known

/-- A concrete store with no stored events. -/
def emptyOutlierDb : OutlierDb := { pdus := [], pduJsonIds := [], outliers := [] }

/-- A concrete PDU that declares no auth events at all, so the map built
from its resolved auth events has no `m.room.create` entry. -/
def c1Pdu : PduEvent :=
  { event_id := "$e1", room_id := "!r", sender := "@u:s", origin_server_ts := 5,
    kind := "m.room.message", state_key := none, prev_events := [], auth_events := [] }

/-- A run of `handle_outlier_pdu` whose signature verification succeeds and
whose room-version auth check reports success. -/
def c1Ctx : OutlierCtx :=
  { verify := .allOk, authCheck := fun _ => some true, fetchAuthEvents := fun db _ => db }

/-- C1: the create-event guard of `handle_outlier_pdu` never rejects — its
`matches!(.., Some(_) | None)` pattern covers every lookup result — so a PDU
whose resolved auth-event map lacks the room's create event is not rejected
and is persisted as an outlier whenever the room-version auth check passes
(shown at a concrete input).  This contradicts the claim (and the source's
own comment) that the original create event must be referenced among the
auth events. -/
theorem C1_missing_create_event_accepted :
    (∀ m, createEventGuardRejects m = false) ∧
    handle_outlier_pdu c1Ctx emptyOutlierDb ("!r") c1Pdu true
      = (.ok c1Pdu, emptyOutlierDb.addOutlier c1Pdu) ∧
    (emptyOutlierDb.addOutlier c1Pdu).outliers.contains c1Pdu.event_id = true := by
  refine ⟨fun m => ?_, rfl, rfl⟩
  unfold createEventGuardRejects
  cases alookup m (String.mk "m.room.create".data, String.mk []) <;> rfl

/-- Modelled from the spec: the per-PDU federation transaction wrapper
around `handle_incoming_pdu` (the `/send` route handler; not under `src/`)
consults the bad-event ratelimiter for the incoming event id before
processing, and on a failed handling records the failure for that id
(spec §4.8.4 and §8 scenario 3: drop-class errors "ratelimit the event
id").  The Bool in the result records whether the signature verifier was
invoked during the call. -/
def handle_pdu_ratelimited (ctx : OutlierCtx) (rl : RateLimiter) (db : OutlierDb)
    (room_id : String) (value : PduEvent) (now : Nat) :
    Bool × Except Err PduEvent × RateLimiter × OutlierDb :=
  if rl.inBackoff value.event_id now then (false, .error .backingOff, rl, db)
  else
    match handle_outlier_pdu ctx db room_id value true with
    | (.error e, db1) => (true, .error e, rl.backOff value.event_id now, db1)
    | (.ok p, db1) => (true, .ok p, rl, db1)

/-- C2: a syntactically valid PDU whose signature fails verification is
dropped — `handle_outlier_pdu` errors before `add_pdu_outlier`, so the store
(outliers and timeline alike) is unchanged — a bad-event ratelimiter entry
`(now, 1)` is created for its event id, and a second identical call within
5 minutes (`min_elapsed_duration 1 = 300` seconds) returns early without
invoking the signature verifier. -/
theorem C2_bad_signature_dropped_and_ratelimited
    (ctx : OutlierCtx) (rl : RateLimiter) (db : OutlierDb) (room_id : String)
    (value : PduEvent) (now now2 : Nat)
    (hverify : ctx.verify = .invalid)
    (hfresh : rl.get value.event_id = none)
    (hwithin : now2 - now < 5 * 60) :
    handle_pdu_ratelimited ctx rl db room_id value now
      = (true, .error .signatureVerificationFailed, rl.backOff value.event_id now, db) ∧
    (rl.backOff value.event_id now).get value.event_id = some (now, 1) ∧
    handle_pdu_ratelimited ctx (rl.backOff value.event_id now) db room_id value now2
      = (false, .error .backingOff, rl.backOff value.event_id now, db) := by
  have hget : (rl.backOff value.event_id now).get value.event_id = some (now, 1) := by
    have := RateLimiter.get_backOff_self rl value.event_id now
    rw [hfresh] at this
    exact this
  refine ⟨?_, hget, ?_⟩
  · unfold handle_pdu_ratelimited
    rw [show rl.inBackoff value.event_id now = false by
      simp [RateLimiter.inBackoff, hfresh]]
    simp only [if_false, Bool.false_eq_true]
    unfold handle_outlier_pdu
    rw [hverify]
  · unfold handle_pdu_ratelimited
    rw [show (rl.backOff value.event_id now).inBackoff value.event_id now2 = true by
      simp only [RateLimiter.inBackoff, hget]
      have : min_elapsed_duration 1 = 5 * 60 := by decide
      rw [this]
      exact decide_eq_true hwithin]
    simp

/-- A concrete run of the transaction wrapper whose signature verification
fails. -/
def c2Ctx : OutlierCtx :=
  { verify := .invalid, authCheck := fun _ => some true, fetchAuthEvents := fun db _ => db }

/-- A concrete, structurally valid PDU for the C2 witness. -/
def c2Pdu : PduEvent :=
  { event_id := "$e2", room_id := "!r", sender := "@u:s", origin_server_ts := 7,
    kind := "m.room.message", state_key := none, prev_events := ["$e1"],
    auth_events := ["$c"] }

/-- Witness for C2 at a concrete PDU, an empty ratelimiter and store, and a
second call 100 seconds after the first. -/
theorem C2_bad_signature_dropped_and_ratelimited_witness :
    handle_pdu_ratelimited c2Ctx [] emptyOutlierDb ("!r") c2Pdu 0
      = (true, .error .signatureVerificationFailed,
          RateLimiter.backOff [] c2Pdu.event_id 0, emptyOutlierDb) ∧
    RateLimiter.get (RateLimiter.backOff [] c2Pdu.event_id 0) c2Pdu.event_id
      = some (0, 1) ∧
    handle_pdu_ratelimited c2Ctx (RateLimiter.backOff [] c2Pdu.event_id 0)
        emptyOutlierDb ("!r") c2Pdu 100
      = (false, .error .backingOff, RateLimiter.backOff [] c2Pdu.event_id 0,
          emptyOutlierDb) :=
  C2_bad_signature_dropped_and_ratelimited c2Ctx [] emptyOutlierDb ("!r") c2Pdu 0 100
    rfl rfl (by decide)

/-! ## `handle_incoming_pdu` entry (steps 0-2) -/

/-- The state read by the entry of `handle_incoming_pdu`:
`roomExists` is `services().rooms.metadata.exists(room_id)`, `roomDisabled`
is `is_disabled(room_id)`, `aclAllows` is the outcome of
`acl_check(origin, room_id)`, `timeline` backs
`services().rooms.timeline.get_pdu_id` (timeline events only), and
`outliers` lists the ids stored only as outliers (never consulted by these
steps). -/
structure IncomingDb where
  roomExists : Bool
  roomDisabled : Bool
  aclAllows : Bool
  timeline : List (String × Nat)
  outliers : List String
deriving DecidableEq, Repr

/-- Entry of `handle_incoming_pdu` (steps 0-2), embedded exactly; everything
after the idempotency check — room-version lookup, `handle_outlier_pdu`,
prev-event fetching and the promotion to timeline — is the continuation
`rest`, reached only when the event id has no timeline pdu id. -/
def handle_incoming_pdu (rest : IncomingDb → Except Err (Option Nat) × IncomingDb)
    (db : IncomingDb) (event_id : String) :
    Except Err (Option Nat) × IncomingDb :=
  if !db.roomExists then (.error .roomUnknown, db)
  else if db.roomDisabled then (.error .federationDisabled, db)
  else if !db.aclAllows then (.error .aclDenied, db)
  else
    match alookup db.timeline event_id with
    | some pdu_id => (.ok (some pdu_id), db)
    | none => rest db

/-- C3: `handle_incoming_pdu` is idempotent — when the event already has a
timeline pdu id (what the first successful admission stored and returned),
a second invocation returns that same pdu id with the state untouched and
without running any further admission step (the continuation is arbitrary
and never entered); an id stored only as an outlier does not trigger the
short-circuit: the call proceeds into the admission steps. -/
theorem C3_handle_incoming_pdu_idempotent
    (rest : IncomingDb → Except Err (Option Nat) × IncomingDb)
    (db : IncomingDb) (event_id : String)
    (hexists : db.roomExists = true)
    (henabled : db.roomDisabled = false)
    (hacl : db.aclAllows = true) :
    (∀ pdu_id, alookup db.timeline event_id = some pdu_id →
        handle_incoming_pdu rest db event_id = (.ok (some pdu_id), db)) ∧
    (alookup db.timeline event_id = none →
        handle_incoming_pdu rest db event_id = rest db) := by
  constructor
  · intro pdu_id hid
    unfold handle_incoming_pdu
    rw [hexists, henabled, hacl, hid]
    rfl
  · intro hid
    unfold handle_incoming_pdu
    rw [hexists, henabled, hacl, hid]
    rfl

/-- Witness for C3: a state whose timeline holds the event (short-circuit
returns the stored pdu id) and, for a distinct outlier-only id, the call
falls through to the continuation. -/
theorem C3_handle_incoming_pdu_idempotent_witness :
    handle_incoming_pdu (fun db => (.ok none, db))
        { roomExists := true, roomDisabled := false, aclAllows := true,
          timeline := [("$a", 42)], outliers := ["$b"] } ("$a")
      = (.ok (some 42),
          { roomExists := true, roomDisabled := false, aclAllows := true,
            timeline := [("$a", 42)], outliers := ["$b"] }) ∧
    handle_incoming_pdu (fun db => (.ok none, db))
        { roomExists := true, roomDisabled := false, aclAllows := true,
          timeline := [("$a", 42)], outliers := ["$b"] } ("$b")
      = (fun db => ((.ok none : Except Err (Option Nat)), db))
          { roomExists := true, roomDisabled := false, aclAllows := true,
            timeline := [("$a", 42)], outliers := ["$b"] } :=
  ⟨(C3_handle_incoming_pdu_idempotent (fun db => (.ok none, db))
      { roomExists := true, roomDisabled := false, aclAllows := true,
        timeline := [("$a", 42)], outliers := ["$b"] } ("$a") rfl rfl rfl).1 42 (by decide),
   (C3_handle_incoming_pdu_idempotent (fun db => (.ok none, db))
      { roomExists := true, roomDisabled := false, aclAllows := true,
        timeline := [("$a", 42)], outliers := ["$b"] } ("$b") rfl rfl rfl).2 (by decide)⟩

/-! ## `upgrade_outlier_to_timeline_pdu` (steps 10-14)

State slots `(event type, state key)` stand directly for shortstatekeys: the
interner is a process-wide bijection between the two (spec §3, §4.5), so the
pair is its canonical model.  A state map is an association list
`(type, state key) → event id`. -/

/-- A state map `(event type, state key) → event id`. -/
def StateIdMap : Type := List ((String × String) × String)

/-- The timeline-side store used by the promotion: `timeline` backs
`get_pdu_id`, `softFailed` is the soft-fail mark set of `pdu_metadata`,
`appended` records each `append_incoming_pdu` call as
`(event id, soft-fail flag)`, and `currentState` is the room's current
shortstatehash (the target of `force_state`). -/
structure TimelineDb where
  timeline : List (String × Nat)
  softFailed : List String
  appended : List (String × Bool)
  currentState : Nat
deriving DecidableEq, Repr

/-- The construction of the state map from the events fetched for a
`/state_ids` response (`upgrade_outlier_to_timeline_pdu`, step 10): walk the
fetched events in order; an event without a state key is
`Found non-state pdu in state events`; a duplicate `(type, state_key)` slot
is `State event's type and state_key combination exists multiple times`. -/
def buildStateIdsMap : List PduEvent → StateIdMap → Except Err StateIdMap
  | [], acc => .ok acc
  | pdu :: rest, acc =>
    match pdu.state_key with
    | none => .error .nonStateInState
    | some sk =>
      let key := (pdu.kind, sk)
      match alookup acc key with
      | some _ => .error .duplicateStateSlot
      | none => buildStateIdsMap rest ((key, pdu.event_id) :: acc)

/-- The `/state_ids` branch of `upgrade_outlier_to_timeline_pdu`: build the
state map from the fetched outliers, then require the `RoomCreate` id in
that map to equal the room's stored create event id, verbatim from

    if state.get(&create_shortstatekey).map(AsRef::as_ref) != Some(&create_event.event_id) {
        return Err(Error::bad_database("Incoming event refers to wrong create event."));
    } -/
def stateAtIncomingViaStateIds (fetched : List PduEvent) (create_event : PduEvent) :
    Except Err StateIdMap := do
  let state ← buildStateIdsMap fetched []
  if alookup state (String.mk "m.room.create".data, String.mk []) = some create_event.event_id
  then .ok state
  else .error .wrongCreateInState

/-- Step 12's state-at-event computation: the prev-event-derived state when
every prev event resolved (the single-prev shortcut or state resolution over
the prev forks — both external reads whose outcome is `prevDerivedState`),
otherwise the `/state_ids` call on the origin (`stateIdsResponse` is `none`
when the federation request itself failed). -/
def computeStateAtEvent (prevDerivedState : Option StateIdMap)
    (stateIdsResponse : Option (List PduEvent)) (create_event : PduEvent) :
    Except Err StateIdMap :=
  match prevDerivedState with
  | some state => .ok state
  | none =>
    match stateIdsResponse with
    | none => .error .peerFetchFailed
    | some fetched => stateAtIncomingViaStateIds fetched create_event

/-- Recorded outcomes of the external reads and primitives used by one
promotion: the prev-derived state (step B), the `/state_ids` response, the
room-version auth check against the state at the event (step 11), the auth
check against the auth events drawn from the room's current state (the
soft-fail check, step 14; `none` models the check itself erroring), the
shortstatehash that `save_state` assigns when the incoming event is a state
event, and the pdu id `append_incoming_pdu` assigns. -/
structure UpgradeCtx where
  prevDerivedState : Option StateIdMap
  stateIdsResponse : Option (List PduEvent)
  authCheckAtEvent : Option Bool
  authCheckCurrent : Option Bool
  resolvedStateHash : Nat
  newPduId : Nat

/-- Modelled from the spec: `append_incoming_pdu` (service `rooms/timeline`,
not under `src/`) persists the pdu with its soft-fail flag; a soft-failed
event is kept out of the timeline ("accepted into storage but excluded from
the timeline", spec glossary and §4.8.3 I), so only a non-soft-failed append
gains a timeline pdu id. -/
def TimelineDb.appendIncomingPdu (db : TimelineDb) (pdu : PduEvent)
    (soft_fail : Bool) (pdu_id : Nat) : TimelineDb :=
  { db with
    appended := (pdu.event_id, soft_fail) :: db.appended,
    timeline := if soft_fail then db.timeline
                else (pdu.event_id, pdu_id) :: db.timeline }

/-- Modelled from the spec: `mark_event_soft_failed` (service
`rooms/pdu_metadata`, not under `src/`) records the soft-fail mark that
`is_event_soft_failed` reads (spec §3, "Soft-Fail Mark"). -/
def TimelineDb.markSoftFailed (db : TimelineDb) (event_id : String) : TimelineDb :=
  { db with softFailed := event_id :: db.softFailed }

/-- Promotion of an outlier to a timeline event
(`upgrade_outlier_to_timeline_pdu`): return the stored pdu id when already
in the timeline; fail fast on a soft-fail mark; compute the state at the
event; auth-check against it (fatal on failure); run the soft-fail check
against the current-state auth events; when the event is a state event,
resolve and force the new room state; then append — a soft-failed event is
appended with the mark set and the call returns the soft-fail error,
otherwise the new pdu id is returned. -/
def upgrade_outlier_to_timeline_pdu (ctx : UpgradeCtx) (db : TimelineDb)
    (create_event incoming_pdu : PduEvent) :
    Except Err (Option Nat) × TimelineDb :=
  match alookup db.timeline incoming_pdu.event_id with
  | some pduid => (.ok (some pduid), db)
  | none =>
    if db.softFailed.contains incoming_pdu.event_id then (.error .softFailed, db)
    else
      match computeStateAtEvent ctx.prevDerivedState ctx.stateIdsResponse create_event with
      | .error e => (.error e, db)
      | .ok _ =>
        match ctx.authCheckAtEvent with
        | none => (.error .authAtEventFailed, db)
        | some false => (.error .authAtEventFailed, db)
        | some true =>
          match ctx.authCheckCurrent with
          | none => (.error .authCheckFailed, db)
          | some passes =>
            let soft_fail := !passes
            let db1 := if incoming_pdu.state_key.isSome
                       then { db with currentState := ctx.resolvedStateHash }
                       else db
            if soft_fail then
              let db2 := (db1.appendIncomingPdu incoming_pdu true
                  ctx.newPduId).markSoftFailed incoming_pdu.event_id
              (.error .softFailed, db2)
            else
              (.ok (some ctx.newPduId),
                db1.appendIncomingPdu incoming_pdu false ctx.newPduId)

theorem upgrade_soft_failed_fast (ctx : UpgradeCtx) (db : TimelineDb)
    (create_event pdu : PduEvent)
    (h1 : alookup db.timeline pdu.event_id = none)
    (h2 : db.softFailed.contains pdu.event_id = true) :
    upgrade_outlier_to_timeline_pdu ctx db create_event pdu = (.error .softFailed, db) := by
  unfold upgrade_outlier_to_timeline_pdu
  rw [h1, h2]
  rfl

/-- C4: an event that fails the soft-fail auth check (the check against the
auth events drawn from the room's current state) is persisted with the
soft-fail mark — appended with the flag set, hence kept out of the
timeline — and the call returns the soft-fail error; any later promotion
attempt for the same event (any outcome of the external reads) returns that
error immediately with the state untouched. -/
theorem C4_soft_fail_persisted_and_sticky
    (ctx ctx2 : UpgradeCtx) (db : TimelineDb) (create_event pdu : PduEvent)
    (state : StateIdMap)
    (hnotl : alookup db.timeline pdu.event_id = none)
    (hnosf : db.softFailed.contains pdu.event_id = false)
    (hstate : computeStateAtEvent ctx.prevDerivedState ctx.stateIdsResponse create_event
        = .ok state)
    (hauth : ctx.authCheckAtEvent = some true)
    (hsoft : ctx.authCheckCurrent = some false) :
    (upgrade_outlier_to_timeline_pdu ctx db create_event pdu).1 = .error .softFailed ∧
    pdu.event_id ∈ (upgrade_outlier_to_timeline_pdu ctx db create_event pdu).2.softFailed ∧
    (pdu.event_id, true) ∈ (upgrade_outlier_to_timeline_pdu ctx db create_event pdu).2.appended ∧
    alookup (upgrade_outlier_to_timeline_pdu ctx db create_event pdu).2.timeline
      pdu.event_id = none ∧
    upgrade_outlier_to_timeline_pdu ctx2
        (upgrade_outlier_to_timeline_pdu ctx db create_event pdu).2 create_event pdu
      = (.error .softFailed, (upgrade_outlier_to_timeline_pdu ctx db create_event pdu).2) := by
  have hrun : upgrade_outlier_to_timeline_pdu ctx db create_event pdu
      = (.error .softFailed,
         ((if pdu.state_key.isSome
           then { db with currentState := ctx.resolvedStateHash }
           else db).appendIncomingPdu pdu true ctx.newPduId).markSoftFailed
             pdu.event_id) := by
    unfold upgrade_outlier_to_timeline_pdu
    rw [hnotl, hnosf, hstate, hauth, hsoft]
    rfl
  rw [hrun]
  have htl : (((if pdu.state_key.isSome
      then { db with currentState := ctx.resolvedStateHash }
      else db).appendIncomingPdu pdu true ctx.newPduId).markSoftFailed
        pdu.event_id).timeline = db.timeline := by
    by_cases hsk : pdu.state_key.isSome <;>
      simp [hsk, TimelineDb.appendIncomingPdu, TimelineDb.markSoftFailed]
  have hsf : (((if pdu.state_key.isSome
      then { db with currentState := ctx.resolvedStateHash }
      else db).appendIncomingPdu pdu true ctx.newPduId).markSoftFailed
        pdu.event_id).softFailed.contains pdu.event_id = true := by
    by_cases hsk : pdu.state_key.isSome <;>
      simp [hsk, TimelineDb.appendIncomingPdu, TimelineDb.markSoftFailed]
  refine ⟨rfl, ?_, ?_, ?_, ?_⟩
  · by_cases hsk : pdu.state_key.isSome <;>
      simp [hsk, TimelineDb.appendIncomingPdu, TimelineDb.markSoftFailed]
  · by_cases hsk : pdu.state_key.isSome <;>
      simp [hsk, TimelineDb.appendIncomingPdu, TimelineDb.markSoftFailed]
  · rw [htl]
    exact hnotl
  · exact upgrade_soft_failed_fast ctx2 _ create_event pdu (by rw [htl]; exact hnotl) hsf

/-- A concrete timeline-side store with nothing admitted. -/
def emptyTimelineDb : TimelineDb :=
  { timeline := [], softFailed := [], appended := [], currentState := 0 }

/-- A concrete create event. -/
def c4Create : PduEvent :=
  { event_id := "$create", room_id := "!r", sender := "@a:s", origin_server_ts := 1,
    kind := "m.room.create", state_key := some (String.mk []), prev_events := [],
    auth_events := [] }

/-- A concrete message event for the C4 witness. -/
def c4Pdu : PduEvent :=
  { event_id := "$m", room_id := "!r", sender := "@banned:s", origin_server_ts := 9,
    kind := "m.room.message", state_key := none, prev_events := ["$create"],
    auth_events := ["$create"] }

/-- A concrete promotion whose step-11 auth check passes but whose soft-fail
check fails. -/
def c4Ctx : UpgradeCtx :=
  { prevDerivedState := some [], stateIdsResponse := none,
    authCheckAtEvent := some true, authCheckCurrent := some false,
    resolvedStateHash := 1, newPduId := 7 }

/-- Witness for C4 at a concrete event, store and check outcomes. -/
theorem C4_soft_fail_persisted_and_sticky_witness :
    (upgrade_outlier_to_timeline_pdu c4Ctx emptyTimelineDb c4Create c4Pdu).1
      = .error .softFailed ∧
    c4Pdu.event_id
      ∈ (upgrade_outlier_to_timeline_pdu c4Ctx emptyTimelineDb c4Create c4Pdu).2.softFailed ∧
    (c4Pdu.event_id, true)
      ∈ (upgrade_outlier_to_timeline_pdu c4Ctx emptyTimelineDb c4Create c4Pdu).2.appended ∧
    alookup (upgrade_outlier_to_timeline_pdu c4Ctx emptyTimelineDb c4Create c4Pdu).2.timeline
      c4Pdu.event_id = none ∧
    upgrade_outlier_to_timeline_pdu c4Ctx
        (upgrade_outlier_to_timeline_pdu c4Ctx emptyTimelineDb c4Create c4Pdu).2
        c4Create c4Pdu
      = (.error .softFailed,
          (upgrade_outlier_to_timeline_pdu c4Ctx emptyTimelineDb c4Create c4Pdu).2) :=
  C4_soft_fail_persisted_and_sticky c4Ctx c4Ctx emptyTimelineDb c4Create c4Pdu []
    rfl rfl rfl rfl rfl

/-- C5: when the state at the incoming event is derived via `/state_ids`
(no prev event resolved), the state map built from the fetched outliers must
carry the room's stored create event id in its `RoomCreate` slot; any
response where it differs (or is absent) makes the whole promotion fail with
`Incoming event refers to wrong create event` — the event is not admitted to
the timeline and the store is untouched. -/
theorem C5_state_ids_create_mismatch_fatal
    (ctx : UpgradeCtx) (db : TimelineDb) (create_event pdu : PduEvent)
    (fetched : List PduEvent) (state : StateIdMap)
    (hprev : ctx.prevDerivedState = none)
    (hresp : ctx.stateIdsResponse = some fetched)
    (hbuild : buildStateIdsMap fetched [] = .ok state)
    (hmismatch : ¬ alookup state (String.mk "m.room.create".data, String.mk [])
        = some create_event.event_id)
    (hnotl : alookup db.timeline pdu.event_id = none)
    (hnosf : db.softFailed.contains pdu.event_id = false) :
    stateAtIncomingViaStateIds fetched create_event = .error .wrongCreateInState ∧
    upgrade_outlier_to_timeline_pdu ctx db create_event pdu
      = (.error .wrongCreateInState, db) := by
  have hbranch : stateAtIncomingViaStateIds fetched create_event
      = .error .wrongCreateInState := by
    unfold stateAtIncomingViaStateIds
    rw [hbuild]
    show (if alookup state (String.mk "m.room.create".data, String.mk [])
        = some create_event.event_id then Except.ok state
      else Except.error Err.wrongCreateInState) = Except.error Err.wrongCreateInState
    rw [if_neg hmismatch]
  have hcompute : computeStateAtEvent ctx.prevDerivedState ctx.stateIdsResponse create_event
      = .error .wrongCreateInState := by
    rw [hprev, hresp]
    unfold computeStateAtEvent
    exact hbranch
  refine ⟨hbranch, ?_⟩
  unfold upgrade_outlier_to_timeline_pdu
  rw [hnotl, hnosf, hcompute]
  rfl

/-- A concrete fetched `/state_ids` state: a create event other than the
room's stored one. -/
def c5Fetched : List PduEvent :=
  [{ event_id := "$othercreate", room_id := "!r", sender := "@a:s",
     origin_server_ts := 1, kind := "m.room.create", state_key := some (String.mk []),
     prev_events := [], auth_events := [] }]

/-- A concrete promotion forced onto the `/state_ids` path. -/
def c5Ctx : UpgradeCtx :=
  { prevDerivedState := none, stateIdsResponse := some c5Fetched,
    authCheckAtEvent := some true, authCheckCurrent := some true,
    resolvedStateHash := 0, newPduId := 3 }

/-- Witness for C5: the fetched state names `$othercreate` while the room's
create event is `$create`. -/
theorem C5_state_ids_create_mismatch_fatal_witness :
    stateAtIncomingViaStateIds c5Fetched c4Create = .error .wrongCreateInState ∧
    upgrade_outlier_to_timeline_pdu c5Ctx emptyTimelineDb c4Create c4Pdu
      = (.error .wrongCreateInState, emptyTimelineDb) :=
  C5_state_ids_create_mismatch_fatal c5Ctx emptyTimelineDb c4Create c4Pdu c5Fetched
    [((String.mk "m.room.create".data, String.mk []), "$othercreate")]
    rfl rfl rfl (by decide) rfl rfl

/-! ## Membership projector (`rooms/state_cache`)

The `data` module backing the indexes is not under `src/`; its operations
are modelled from spec §4.7: the three membership marks are exclusive per
`(user, room)` (setting one clears the others), `mark_as_once_joined` is
additive, and `update_joined_count` recomputes the cached count.  The
receiver's `m.ignored_user_list` global account data (the `account_data`
service) is passed in as the list of ignored user ids. -/

/-- The ruma `MembershipState` values matched by `update_membership`
(`Knock` falls to the wildcard arm, like every remaining variant). -/
inductive MembershipState where
  | join
  | invite
  | leave
  | ban
  | knock
deriving DecidableEq, Repr

/-- Membership indexes maintained by the state cache, plus the known-users
table touched by the remote-user bookkeeping at the top of
`update_membership`. -/
structure MembershipDb where
  joined : List (String × String)
  invited : List (String × String)
  leftIdx : List (String × String)
  onceJoined : List (String × String)
  joinedCount : List (String × Nat)
  users : List String
deriving DecidableEq, Repr

/-- Drop every occurrence of the pair `(u, r)`. -/
def removePair (l : List (String × String)) (u r : String) : List (String × String) :=
  l.filter (fun p => !(p.1 = u ∧ p.2 = r : Bool))

/-- Record the pair `(u, r)` exactly once. -/
def addPair (l : List (String × String)) (u r : String) : List (String × String) :=
  (u, r) :: removePair l u r

/-- Modelled from the spec: `data::mark_as_joined` — exclusive membership
mark (spec §4.7: setting one clears the others). -/
def MembershipDb.mark_as_joined (db : MembershipDb) (u r : String) : MembershipDb :=
  { db with
    joined := addPair db.joined u r,
    invited := removePair db.invited u r,
    leftIdx := removePair db.leftIdx u r }

/-- Modelled from the spec: `data::mark_as_invited` — exclusive membership
mark (the stripped invite state stored alongside is not an index and is not
modelled). -/
def MembershipDb.mark_as_invited (db : MembershipDb) (u r : String) : MembershipDb :=
  { db with
    joined := removePair db.joined u r,
    invited := addPair db.invited u r,
    leftIdx := removePair db.leftIdx u r }

/-- Modelled from the spec: `data::mark_as_left` — exclusive membership
mark. -/
def MembershipDb.mark_as_left (db : MembershipDb) (u r : String) : MembershipDb :=
  { db with
    joined := removePair db.joined u r,
    invited := removePair db.invited u r,
    leftIdx := addPair db.leftIdx u r }

/-- Modelled from the spec: `data::mark_as_once_joined` — additive, never
cleared. -/
def MembershipDb.mark_as_once_joined (db : MembershipDb) (u r : String) : MembershipDb :=
  { db with onceJoined := addPair db.onceJoined u r }

/-- Modelled from the spec: `data::update_joined_count` — recompute the
cached member count of the room from the joined index. -/
def MembershipDb.update_joined_count (db : MembershipDb) (r : String) : MembershipDb :=
  { db with
    joinedCount :=
      (r, (db.joined.filter (fun p => p.2 = r)).length)
        :: db.joinedCount.filter (fun p => !(p.1 = r : Bool)) }

/-- The `is_joined` predicate. -/
def MembershipDb.is_joined (db : MembershipDb) (u r : String) : Bool :=
  db.joined.contains (u, r)

/-- The `is_invited` predicate. -/
def MembershipDb.is_invited (db : MembershipDb) (u r : String) : Bool :=
  db.invited.contains (u, r)

/-- The `is_left` predicate. -/
def MembershipDb.is_left (db : MembershipDb) (u r : String) : Bool :=
  db.leftIdx.contains (u, r)

/-- The `once_joined` predicate. -/
def MembershipDb.once_joined (db : MembershipDb) (u r : String) : Bool :=
  db.onceJoined.contains (u, r)

/-- Function `update_membership` from `rooms/state_cache/mod.rs`: remote
users are created as known users first; `Join` records the first-ever join
(the predecessor tag / direct-chat copying touches only account data, which
is outside these indexes) and marks joined; `Invite` is skipped entirely —
early return — when the sender is in the receiver's `m.ignored_user_list`,
otherwise marks invited; `Leave` and `Ban` share one arm marking left; every
non-skipped path recomputes the joined count when the caller requested
it. -/
def update_membership (db : MembershipDb) (room_id user_id : String)
    (membership : MembershipState) (sender : String) (ignored_users : List String)
    (want_joined_count : Bool) (is_remote_user : Bool) : MembershipDb :=
  let db0 := if is_remote_user ∧ ¬ db.users.contains user_id
             then { db with users := user_id :: db.users } else db
  match membership with
  | .join =>
    let db1 := if ¬ db0.once_joined user_id room_id
               then db0.mark_as_once_joined user_id room_id else db0
    let db2 := db1.mark_as_joined user_id room_id
    if want_joined_count then db2.update_joined_count room_id else db2
  | .invite =>
    if ignored_users.contains sender then db0
    else
      let db2 := db0.mark_as_invited user_id room_id
      if want_joined_count then db2.update_joined_count room_id else db2
  | .leave =>
    let db2 := db0.mark_as_left user_id room_id
    if want_joined_count then db2.update_joined_count room_id else db2
  | .ban =>
    let db2 := db0.mark_as_left user_id room_id
    if want_joined_count then db2.update_joined_count room_id else db2
  | .knock =>
    if want_joined_count then db0.update_joined_count room_id else db0

theorem not_mem_removePair_self (l : List (String × String)) (u r : String) :
    (u, r) ∉ removePair l u r := by
  intro hmem
  have hpred := List.of_mem_filter hmem
  simp at hpred

theorem mem_addPair_self (l : List (String × String)) (u r : String) :
    (u, r) ∈ addPair l u r :=
  List.mem_cons_self _ _

theorem contains_removePair_self (l : List (String × String)) (u r : String) :
    (removePair l u r).contains (u, r) = false := by
  rw [Bool.eq_false_iff]
  intro hc
  exact not_mem_removePair_self l u r (List.elem_iff.mp hc)

theorem contains_addPair_self (l : List (String × String)) (u r : String) :
    (addPair l u r).contains (u, r) = true := by
  simp [addPair]

/-- C8: an Invite whose sender is in the receiver's `m.ignored_user_list` is
skipped entirely: `update_membership` returns with, at most, the remote-user
bookkeeping applied — the user is not marked invited, none of the
membership indexes change, and the joined count is not recomputed even when
the caller requested it. -/
theorem C8_ignored_invite_skipped
    (db : MembershipDb) (room_id user_id sender : String)
    (ignored_users : List String) (wjc remote : Bool)
    (hign : ignored_users.contains sender = true) :
    update_membership db room_id user_id .invite sender ignored_users wjc remote
      = (if remote ∧ ¬ db.users.contains user_id
         then { db with users := user_id :: db.users } else db) ∧
    (update_membership db room_id user_id .invite sender ignored_users wjc remote).joined
      = db.joined ∧
    (update_membership db room_id user_id .invite sender ignored_users wjc remote).invited
      = db.invited ∧
    (update_membership db room_id user_id .invite sender ignored_users wjc remote).leftIdx
      = db.leftIdx ∧
    (update_membership db room_id user_id .invite sender ignored_users wjc remote).onceJoined
      = db.onceJoined ∧
    (update_membership db room_id user_id .invite sender ignored_users wjc remote).joinedCount
      = db.joinedCount := by
  have h0 : update_membership db room_id user_id .invite sender ignored_users wjc remote
      = (if remote ∧ ¬ db.users.contains user_id
         then { db with users := user_id :: db.users } else db) := by
    unfold update_membership
    rw [hign]
    rfl
  refine ⟨h0, ?_, ?_, ?_, ?_, ?_⟩ <;> rw [h0] <;> split <;> rfl

/-- A concrete membership store for the C8 witness. -/
def c8Db : MembershipDb :=
  { joined := [("@x:s", "!r")], invited := [], leftIdx := [],
    onceJoined := [("@x:s", "!r")], joinedCount := [("!r", 1)], users := ["@x:s"] }

/-- Witness for C8: `@evil:s` invites `@u:s`, who ignores `@evil:s`; the
joined count was requested. -/
theorem C8_ignored_invite_skipped_witness :
    update_membership c8Db ("!r") ("@u:s") .invite ("@evil:s") ["@evil:s"] true true
      = (if (true : Bool) ∧ ¬ c8Db.users.contains ("@u:s")
         then { c8Db with users := "@u:s" :: c8Db.users } else c8Db) ∧
    (update_membership c8Db ("!r") ("@u:s") .invite ("@evil:s") ["@evil:s"] true true).joined
      = c8Db.joined ∧
    (update_membership c8Db ("!r") ("@u:s") .invite ("@evil:s") ["@evil:s"] true true).invited
      = c8Db.invited ∧
    (update_membership c8Db ("!r") ("@u:s") .invite ("@evil:s") ["@evil:s"] true true).leftIdx
      = c8Db.leftIdx ∧
    (update_membership c8Db ("!r") ("@u:s") .invite ("@evil:s") ["@evil:s"] true true).onceJoined
      = c8Db.onceJoined ∧
    (update_membership c8Db ("!r") ("@u:s") .invite ("@evil:s") ["@evil:s"] true true).joinedCount
      = c8Db.joinedCount :=
  C8_ignored_invite_skipped c8Db ("!r") ("@u:s") ("@evil:s") ["@evil:s"] true true (by decide)

/-- C10: at the index level a Ban is processed identically to a Leave — the
source matches `MembershipState::Leave | MembershipState::Ban` into one
`mark_as_left` arm — so after a Ban the user is marked left and the joined
and invited marks for that `(user, room)` are cleared. -/
theorem C10_ban_processed_as_leave
    (db : MembershipDb) (room_id user_id sender : String)
    (ignored_users : List String) (wjc remote : Bool) :
    update_membership db room_id user_id .ban sender ignored_users wjc remote
      = update_membership db room_id user_id .leave sender ignored_users wjc remote ∧
    (update_membership db room_id user_id .ban sender ignored_users wjc remote).is_left
      user_id room_id = true ∧
    (update_membership db room_id user_id .ban sender ignored_users wjc remote).is_joined
      user_id room_id = false ∧
    (update_membership db room_id user_id .ban sender ignored_users wjc remote).is_invited
      user_id room_id = false := by
  refine ⟨rfl, ?_, ?_, ?_⟩ <;>
    unfold update_membership <;>
    cases wjc <;>
    split <;>
    simp [MembershipDb.mark_as_left, MembershipDb.update_joined_count,
      MembershipDb.is_left, MembershipDb.is_joined, MembershipDb.is_invited,
      contains_addPair_self, contains_removePair_self,
      mem_addPair_self, not_mem_removePair_self]

/-- The two joined-rooms indexes read by `user_sees_user`:
`roomsJoinedIdx` backs the `rooms_joined(user)` iterator and `joinedPairs`
backs the `is_joined(user, room)` point query. -/
structure SeesDb where
  roomsJoinedIdx : List (String × List String)
  joinedPairs : List (String × String)
deriving DecidableEq, Repr

/-- The `rooms_joined` iterator: all rooms the user joined. -/
def SeesDb.rooms_joined (db : SeesDb) (user_id : String) : List String :=
  (alookup db.roomsJoinedIdx user_id).getD []

/-- The `is_joined` point query. -/
def SeesDb.is_joined (db : SeesDb) (user_id room_id : String) : Bool :=
  db.joinedPairs.contains (user_id, room_id)

/-- Function `user_sees_user` from `rooms/state_cache/mod.rs`: to minimise
point queries it iterates the rooms of whichever user has fewer joined
rooms, testing `is_joined` for the other. -/
def user_sees_user (db : SeesDb) (user_a user_b : String) : Bool :=
  let p := if (db.rooms_joined user_a).length < (db.rooms_joined user_b).length
           then (user_a, user_b) else (user_b, user_a)
  (db.rooms_joined p.1).any (fun room_id => db.is_joined p.2 room_id)

/-- C9: `user_sees_user` is symmetric whenever the two joined-rooms indexes
agree (`is_joined u r` holds exactly when `r` appears in `rooms_joined u`),
even though the implementation iterates over whichever user has fewer
joined rooms. -/
theorem C9_user_sees_user_symm (db : SeesDb)
    (hcons : ∀ u r, db.is_joined u r = true ↔ r ∈ db.rooms_joined u) :
    ∀ a b, user_sees_user db a b = user_sees_user db b a := by
  have hany : ∀ x y, ((db.rooms_joined x).any (fun room_id => db.is_joined y room_id) = true)
      ↔ ∃ r, r ∈ db.rooms_joined x ∧ r ∈ db.rooms_joined y := by
    intro x y
    rw [List.any_eq_true]
    constructor
    · rintro ⟨r, hr, hj⟩
      exact ⟨r, hr, (hcons y r).1 hj⟩
    · rintro ⟨r, hrx, hry⟩
      exact ⟨r, hrx, (hcons y r).2 hry⟩
  have hswap : ∀ x y, (db.rooms_joined x).any (fun room_id => db.is_joined y room_id)
      = (db.rooms_joined y).any (fun room_id => db.is_joined x room_id) := by
    intro x y
    have : ((db.rooms_joined x).any (fun room_id => db.is_joined y room_id) = true)
        ↔ ((db.rooms_joined y).any (fun room_id => db.is_joined x room_id) = true) := by
      rw [hany, hany]
      constructor <;> rintro ⟨r, h1, h2⟩ <;> exact ⟨r, h2, h1⟩
    cases hx : (db.rooms_joined x).any (fun room_id => db.is_joined y room_id) <;>
      cases hy : (db.rooms_joined y).any (fun room_id => db.is_joined x room_id) <;>
      simp_all
  intro a b
  unfold user_sees_user
  by_cases hab : (db.rooms_joined a).length < (db.rooms_joined b).length <;>
    by_cases hba : (db.rooms_joined b).length < (db.rooms_joined a).length <;>
    simp only [hab, hba, if_pos, if_neg, if_true, if_false] <;>
    first
      | rfl
      | exact absurd (hab.trans hba) (lt_irrefl _)
      | exact hswap b a

/-- A concrete consistent pair of joined-rooms indexes for the C9 witness:
`@u:s` and `@v:s` share `!r2`. -/
def c9Db : SeesDb :=
  { roomsJoinedIdx := [("@u:s", ["!r1", "!r2"]), ("@v:s", ["!r2"])],
    joinedPairs := [("@u:s", "!r1"), ("@u:s", "!r2"), ("@v:s", "!r2")] }

theorem c9Db_consistent (u r : String) :
    c9Db.is_joined u r = true ↔ r ∈ c9Db.rooms_joined u := by
  constructor
  · intro h
    have hmem : (u, r) ∈ c9Db.joinedPairs := List.elem_iff.mp h
    simp only [c9Db, List.mem_cons, List.not_mem_nil, or_false, Prod.mk.injEq] at hmem
    rcases hmem with ⟨hu, hr⟩ | ⟨hu, hr⟩ | ⟨hu, hr⟩ <;> subst hu <;> subst hr <;> decide
  · intro h
    by_cases hu : ("@u:s" : String) = u
    · subst hu
      have h2 : r = "!r1" ∨ r = "!r2" := by
        simpa [c9Db, SeesDb.rooms_joined, alookup] using h
      rcases h2 with rfl | rfl <;> decide
    · by_cases hv : ("@v:s" : String) = u
      · subst hv
        have h2 : r = "!r2" := by
          simpa [c9Db, SeesDb.rooms_joined, alookup] using h
        subst h2
        decide
      · exact absurd h (by simp [c9Db, SeesDb.rooms_joined, alookup, hu, hv])

/-- Witness for C9 at a concrete consistent store. -/
theorem C9_user_sees_user_symm_witness :
    user_sees_user c9Db ("@u:s") ("@v:s") = user_sees_user c9Db ("@v:s") ("@u:s") :=
  C9_user_sees_user_symm c9Db (fun u r => c9Db_consistent u r) ("@u:s") ("@v:s")

/-! ## Topological sorting of fetched prev events (`fetch_unknown_prev_events`)

The sorter itself, `state_res::lexicographical_topological_sort`, is an
external library primitive; spec §4.8 step 8 fixes its contract: sort the
sub-DAG in a lexicographical-topological order keyed by
`(power_level_placeholder = 0, origin_server_ts)` with ties broken by
event id.  It is modelled below as the greedy Kahn walk that repeatedly
emits, among the nodes whose dependencies were all emitted, the least by
`(key, event_id)`; a node with a dependency outside the graph (or in a
cycle) never becomes available and is left out, as in the library.  The sort
key is embedded from the source. -/

/-- The sort key passed to `lexicographical_topological_sort` by
`fetch_unknown_prev_events`: the power-level placeholder `int!(0)` first,
then the event's `origin_server_ts` taken from `eventid_info`, defaulting to
`uint!(0)` when the event is missing from it. -/
def prevEventSortKey (eventid_info : List (String × PduEvent)) (event_id : String) :
    Nat × Nat :=
  (0, match alookup eventid_info event_id with
      | some pdu => pdu.origin_server_ts
      | none => 0)

/-- The full comparison triple of a node: its sort key, then the node id as
the tie breaker. -/
def tripleOf (key : String → Nat × Nat) (n : String) : (Nat × Nat) × String :=
  (key n, n)

/-- Lexicographic strict order on comparison triples. -/
def keyLt (a b : (Nat × Nat) × String) : Prop :=
  a.1.1 < b.1.1 ∨ (a.1.1 = b.1.1 ∧ (a.1.2 < b.1.2 ∨ (a.1.2 = b.1.2 ∧ a.2 < b.2)))

instance keyLtDecidable (a b : (Nat × Nat) × String) : Decidable (keyLt a b) := by
  unfold keyLt
  infer_instance

theorem keyLt_trans {a b c : (Nat × Nat) × String}
    (h1 : keyLt a b) (h2 : keyLt b c) : keyLt a c := by
  unfold keyLt at h1 h2 ⊢
  rcases h1 with h1 | ⟨e1, h1⟩ <;> rcases h2 with h2 | ⟨e2, h2⟩
  · exact Or.inl (h1.trans h2)
  · exact Or.inl (e2 ▸ h1)
  · exact Or.inl (e1 ▸ h2)
  · refine Or.inr ⟨e1.trans e2, ?_⟩
    rcases h1 with h1 | ⟨f1, h1⟩ <;> rcases h2 with h2 | ⟨f2, h2⟩
    · exact Or.inl (h1.trans h2)
    · exact Or.inl (f2 ▸ h1)
    · exact Or.inl (f1 ▸ h2)
    · exact Or.inr ⟨f1.trans f2, h1.trans h2⟩

theorem keyLt_total {a b : (Nat × Nat) × String} (h : a.2 ≠ b.2) :
    keyLt a b ∨ keyLt b a := by
  unfold keyLt
  rcases Nat.lt_trichotomy a.1.1 b.1.1 with h1 | h1 | h1
  · exact Or.inl (Or.inl h1)
  · rcases Nat.lt_trichotomy a.1.2 b.1.2 with h2 | h2 | h2
    · exact Or.inl (Or.inr ⟨h1, Or.inl h2⟩)
    · rcases h.lt_or_lt with h3 | h3
      · exact Or.inl (Or.inr ⟨h1, Or.inr ⟨h2, h3⟩⟩)
      · exact Or.inr (Or.inr ⟨h1.symm, Or.inr ⟨h2.symm, h3⟩⟩)
    · exact Or.inr (Or.inr ⟨h1.symm, Or.inl h2⟩)
  · exact Or.inr (Or.inl h1)

/-- The least element of a list of nodes by `(key, id)`. -/
def minByKey (key : String → Nat × Nat) : List String → Option String
  | [] => none
  | n :: rest =>
    match minByKey key rest with
    | none => some n
    | some m => if keyLt (tripleOf key n) (tripleOf key m) then some n else some m

theorem minByKey_eq_none (key : String → Nat × Nat) (l : List String) :
    minByKey key l = none ↔ l = [] := by
  cases l with
  | nil => simp [minByKey]
  | cons n rest =>
    simp only [minByKey]
    cases hm : minByKey key rest <;> simp
    split <;> simp

theorem minByKey_spec (key : String → Nat × Nat) :
    ∀ (l : List String) (n : String), minByKey key l = some n →
      n ∈ l ∧ ∀ m ∈ l, m ≠ n → keyLt (tripleOf key n) (tripleOf key m) := by
  intro l
  induction l with
  | nil => intro n h; exact absurd h (by simp [minByKey])
  | cons a rest ih =>
    intro n h
    simp only [minByKey] at h
    cases hm : minByKey key rest with
    | none =>
      rw [hm] at h
      have hrest : rest = [] := (minByKey_eq_none key rest).mp hm
      subst hrest
      cases h
      refine ⟨List.mem_singleton_self a, ?_⟩
      intro m hmem hne
      rcases List.mem_singleton.mp hmem with rfl
      exact absurd rfl hne
    | some m0 =>
      simp only [hm] at h
      obtain ⟨hm0mem, hm0min⟩ := ih m0 hm
      by_cases hlt : keyLt (tripleOf key a) (tripleOf key m0)
      · rw [if_pos hlt] at h
        cases h
        refine ⟨List.mem_cons_self _ _, ?_⟩
        intro m hmem hne
        rcases List.mem_cons.mp hmem with rfl | hmem
        · exact absurd rfl hne
        · by_cases hmm0 : m = m0
          · subst hmm0; exact hlt
          · exact keyLt_trans hlt (hm0min m hmem hmm0)
      · rw [if_neg hlt] at h
        cases h
        refine ⟨List.mem_cons_of_mem _ hm0mem, ?_⟩
        intro m hmem hne
        rcases List.mem_cons.mp hmem with rfl | hmem
        · have hid : m ≠ n := hne
          have htot := @keyLt_total (tripleOf key m) (tripleOf key n)
            (by simpa [tripleOf] using hid)
          rcases htot with htot | htot
          · exact absurd htot hlt
          · exact htot
        · exact hm0min m hmem hne

/-- Nodes of the graph ready to be emitted after the nodes of `done`: not
emitted yet, with every dependency already emitted (a dependency outside the
graph's keys is never emitted, which permanently blocks its dependents, as
in the library). -/
def availList (graph : List (String × List String)) (done : List String) : List String :=
  (graph.filter
      (fun p => decide (p.1 ∉ done) && p.2.all (fun d => decide (d ∈ done)))).map
    Prod.fst

/-- The least available node by `(key, id)`. -/
def minAvail (graph : List (String × List String)) (key : String → Nat × Nat)
    (done : List String) : Option String :=
  minByKey key (availList graph done)

/-- Number of graph keys not yet emitted (the fuel measure of the walk). -/
def remainingCount (graph : List (String × List String)) (done : List String) : Nat :=
  ((graph.map Prod.fst).filter (fun k => decide (k ∉ done))).length

/-- The greedy walk: starting from the emitted list `done` (newest first),
repeatedly emit the least available node. -/
def lexTopoSortAux (graph : List (String × List String)) (key : String → Nat × Nat) :
    Nat → List String → List String
  | 0, done => done.reverse
  | fuel + 1, done =>
    match minAvail graph key done with
    | none => done.reverse
    | some n => lexTopoSortAux graph key fuel (n :: done)

/-- Modelled from the spec: `state_res::lexicographical_topological_sort`
(external library): the lexicographical-topological order of the sub-DAG —
dependencies before dependents, choosing at every step the least available
node by `(key, event_id)` (spec §4.8 step 8). -/
def lexicographical_topological_sort (graph : List (String × List String))
    (key : String → Nat × Nat) : List String :=
  lexTopoSortAux graph key graph.length []

/-- The sorting step of `fetch_unknown_prev_events`: the sub-DAG of fetched
prev events is sorted with the key built from `eventid_info`. -/
def fetch_unknown_prev_events_sort (eventid_info : List (String × PduEvent))
    (graph : List (String × List String)) : List String :=
  lexicographical_topological_sort graph (prevEventSortKey eventid_info)

/-- A list `tail` is the greedy lexicographical-topological continuation
after the emitted list `done`: every step emits exactly the least available
node, and the walk ends only when no node is available. -/
inductive GreedySort (graph : List (String × List String))
    (key : String → Nat × Nat) : List String → List String → Prop where
  | nil (done : List String) :
      minAvail graph key done = none → GreedySort graph key done []
  | cons (done : List String) (n : String) (tail : List String) :
      minAvail graph key done = some n →
      GreedySort graph key (n :: done) tail →
      GreedySort graph key done (n :: tail)

theorem mem_availList_elim {graph : List (String × List String)}
    {done : List String} {n : String} (h : n ∈ availList graph done) :
    n ∈ graph.map Prod.fst ∧ n ∉ done ∧
      ∃ deps, (n, deps) ∈ graph ∧ ∀ d ∈ deps, d ∈ done := by
  unfold availList at h
  obtain ⟨p, hp, rfl⟩ := List.mem_map.mp h
  obtain ⟨hpg, hpq⟩ := List.mem_filter.mp hp
  simp only [Bool.and_eq_true, decide_eq_true_eq, List.all_eq_true] at hpq
  exact ⟨List.mem_map_of_mem _ hpg, hpq.1, p.2, hpg, hpq.2⟩

theorem availList_eq_nil_of_remaining_zero {graph : List (String × List String)}
    {done : List String} (h : remainingCount graph done = 0) :
    availList graph done = [] := by
  unfold remainingCount at h
  have hall := List.filter_eq_nil_iff.mp (List.length_eq_zero.mp h)
  unfold availList
  have hfil : graph.filter
      (fun p => decide (p.1 ∉ done) && p.2.all (fun d => decide (d ∈ done))) = [] := by
    apply List.filter_eq_nil_iff.mpr
    intro p hp
    have hk := hall p.1 (List.mem_map_of_mem _ hp)
    simp only [decide_eq_true_eq, not_not] at hk
    simp [hk]
  rw [hfil]
  rfl

theorem remainingCount_cons_lt {graph : List (String × List String)}
    {done : List String} {n : String}
    (hk : n ∈ graph.map Prod.fst) (hd : n ∉ done) :
    remainingCount graph (n :: done) < remainingCount graph done := by
  unfold remainingCount
  have hsplit : (graph.map Prod.fst).filter (fun k => decide (k ∉ n :: done))
      = ((graph.map Prod.fst).filter (fun k => decide (k ∉ done))).filter
          (fun k => decide (k ≠ n)) := by
    rw [List.filter_filter]
    apply List.filter_congr
    intro k _
    simp [List.mem_cons, not_or, and_comm]
  rw [hsplit]
  apply List.length_filter_lt_length_iff_exists.mpr
  refine ⟨n, List.mem_filter.mpr ⟨hk, by simp [hd]⟩, by simp⟩

theorem lexTopoSortAux_greedy (graph : List (String × List String))
    (key : String → Nat × Nat) :
    ∀ (fuel : Nat) (done : List String),
      remainingCount graph done ≤ fuel →
      ∃ tail, lexTopoSortAux graph key fuel done = done.reverse ++ tail ∧
        GreedySort graph key done tail := by
  intro fuel
  induction fuel with
  | zero =>
    intro done h
    refine ⟨[], by simp [lexTopoSortAux], GreedySort.nil done ?_⟩
    unfold minAvail
    rw [availList_eq_nil_of_remaining_zero (Nat.le_zero.mp h)]
    rfl
  | succ fuel ih =>
    intro done h
    cases hm : minAvail graph key done with
    | none =>
      exact ⟨[], by simp [lexTopoSortAux, hm], GreedySort.nil done hm⟩
    | some n =>
      have hmem : n ∈ availList graph done := (minByKey_spec key _ n hm).1
      obtain ⟨hkeys, hnotdone, -⟩ := mem_availList_elim hmem
      have hlt := remainingCount_cons_lt hkeys hnotdone
      obtain ⟨tail, heq, hg⟩ := ih (n :: done) (by omega)
      refine ⟨n :: tail, ?_, GreedySort.cons done n tail hm hg⟩
      have hstep : lexTopoSortAux graph key (fuel + 1) done
          = lexTopoSortAux graph key fuel (n :: done) := by
        show (match minAvail graph key done with
              | none => done.reverse
              | some m => lexTopoSortAux graph key fuel (m :: done))
            = lexTopoSortAux graph key fuel (n :: done)
        rw [hm]
      rw [hstep, heq]
      simp

theorem GreedySort.split (graph : List (String × List String))
    (key : String → Nat × Nat) :
    ∀ done tail, GreedySort graph key done tail →
      ∀ l1 n l2, tail = l1 ++ n :: l2 →
        minAvail graph key (l1.reverse ++ done) = some n := by
  intro done tail h
  induction h with
  | nil done hnone =>
    intro l1 n l2 heq
    exact absurd heq (by cases l1 <;> simp)
  | cons done n0 tail hmin hg ih =>
    intro l1 n l2 heq
    cases l1 with
    | nil =>
      simp only [List.nil_append, List.cons.injEq] at heq
      obtain ⟨rfl, rfl⟩ := heq
      simpa using hmin
    | cons a l1' =>
      simp only [List.cons_append, List.cons.injEq] at heq
      obtain ⟨rfl, htail⟩ := heq
      have hih := ih l1' n l2 htail
      rw [List.reverse_cons, List.append_assoc]
      simpa using hih

theorem availList_congr (graph : List (String × List String)) (d1 d2 : List String)
    (h : ∀ x, x ∈ d1 ↔ x ∈ d2) : availList graph d1 = availList graph d2 := by
  unfold availList
  congr 1
  apply List.filter_congr
  intro p _
  have h1 : (decide (p.1 ∉ d1)) = (decide (p.1 ∉ d2)) :=
    decide_eq_decide.mpr (not_congr (h p.1))
  have h2 : (p.2.all fun d => decide (d ∈ d1)) = (p.2.all fun d => decide (d ∈ d2)) := by
    have hfun : (fun d => decide (d ∈ d1)) = (fun d => decide (d ∈ d2)) := by
      funext d
      exact decide_eq_decide.mpr (h d)
    rw [hfun]
  rw [h1, h2]

/-- C7: the prev events fetched by `handle_incoming_pdu` are processed in
the lexicographical-topological order of the fetched sub-DAG under the key
`(power-level placeholder 0, origin_server_ts)` with ties broken by event
id, events missing from `eventid_info` sorting with timestamp 0: the sorted
list is exactly the greedy walk emitting at every step the least available
node by that key, so every emitted node follows all its in-graph
dependencies, which by `prevEventSortKey` are compared by
`((0, timestamp or 0), event_id)`. -/
theorem C7_prev_events_lex_topological_sort
    (eventid_info : List (String × PduEvent)) (graph : List (String × List String)) :
    GreedySort graph (prevEventSortKey eventid_info) []
      (fetch_unknown_prev_events_sort eventid_info graph) ∧
    (∀ l1 n l2,
        fetch_unknown_prev_events_sort eventid_info graph = l1 ++ n :: l2 →
        n ∈ availList graph l1 ∧
        (∀ m ∈ availList graph l1, m ≠ n →
          keyLt (tripleOf (prevEventSortKey eventid_info) n)
            (tripleOf (prevEventSortKey eventid_info) m)) ∧
        n ∉ l1 ∧
        ∃ deps, (n, deps) ∈ graph ∧ ∀ d ∈ deps, d ∈ l1) := by
  have hfuel : remainingCount graph [] ≤ graph.length := by
    unfold remainingCount
    exact Nat.le_trans (List.length_filter_le _ _) (by rw [List.length_map])
  obtain ⟨tail, heq, hg⟩ :=
    lexTopoSortAux_greedy graph (prevEventSortKey eventid_info) graph.length [] hfuel
  have hsort : fetch_unknown_prev_events_sort eventid_info graph = tail := by
    unfold fetch_unknown_prev_events_sort lexicographical_topological_sort
    rw [heq]
    simp
  constructor
  · rw [hsort]
    exact hg
  · intro l1 n l2 hspl
    rw [hsort] at hspl
    have hmin := GreedySort.split graph (prevEventSortKey eventid_info) [] tail hg
      l1 n l2 hspl
    unfold minAvail at hmin
    rw [availList_congr graph (l1.reverse ++ []) l1 (by intro x; simp)] at hmin
    obtain ⟨hmem, hmin2⟩ := minByKey_spec (prevEventSortKey eventid_info) _ n hmin
    obtain ⟨-, hnotin, hdeps⟩ := mem_availList_elim hmem
    exact ⟨hmem, hmin2, hnotin, hdeps⟩

/-- Concrete fetched info for the C7 witness: `$a` at timestamp 5, `$b` at
timestamp 10, `$b` depending on `$a`. -/
def c7Info : List (String × PduEvent) :=
  [("$b", { event_id := "$b", room_id := "!r", sender := "@u:s",
            origin_server_ts := 10, kind := "m.room.message", state_key := none,
            prev_events := ["$a"], auth_events := [] }),
   ("$a", { event_id := "$a", room_id := "!r", sender := "@u:s",
            origin_server_ts := 5, kind := "m.room.message", state_key := none,
            prev_events := [], auth_events := [] })]

/-- The sub-DAG of the C7 witness. -/
def c7Graph : List (String × List String) := [("$b", ["$a"]), ("$a", [])]

/-- Witness for C7: in the two-event chain the second position holds `$b`,
available only after its dependency `$a` and minimal by the key among the
available nodes. -/
theorem C7_prev_events_lex_topological_sort_witness :
    ("$b" : String) ∈ availList c7Graph ["$a"] ∧
    (∀ m ∈ availList c7Graph ["$a"], m ≠ "$b" →
      keyLt (tripleOf (prevEventSortKey c7Info) "$b")
        (tripleOf (prevEventSortKey c7Info) m)) ∧
    ("$b" : String) ∉ (["$a"] : List String) ∧
    (∃ deps, (("$b" : String), deps) ∈ c7Graph ∧
      ∀ d ∈ deps, d ∈ (["$a"] : List String)) :=
  (C7_prev_events_lex_topological_sort c7Info c7Graph).2 ["$a"] "$b" [] (by decide)

end Conduwuit
